import Mathlib

/-!
# Verification of the CodeAct control loop (`langgraph_codeact/__init__.py`)

A shallow embedding of the repository's code-acting agent loop:

* the Code Extractor `extract_and_combine_codeblocks` (imported by the code
  from `langgraph_codeact.utils`, whose source is not in the repository;
  modelled here from the specification's algorithm, §4.1),
* the agent state `CodeActState` (messages / script / context),
* the node functions `call_model` and `sandbox` exactly as written in
  `create_codeact`,
* the graph wiring `START → call_model`, `call_model --Command--> sandbox | END`,
  `sandbox → call_model` as a driver (`stepRun` / `runN`),
* a fallible variant of the sandbox node and of `remote_eval`
  (`src/sse_server.py`) for the error-propagation behaviour.

Python `dict[str, Any]` context values are abstracted by a type parameter
`Ctx`: the loop never interprets the context's contents.
-/

set_option autoImplicit false

namespace CodeAct

/-! ## Code Extractor

Modelled from the spec: `extract_and_combine_codeblocks` lives in
`langgraph_codeact/utils.py`, which is not part of the repository sources;
the definitions below follow §4.1 of the specification: scan for fenced
regions delimited by triple-backtick markers, optionally with a language
tag on the opening fence; collect region contents in document order,
trimming the language tag; zero regions give the empty ("no code") result,
otherwise the contents are joined by a single blank line.  For an
unterminated opening fence we adopt the policy that the remainder of the
text is the region's content (one of the two policies the spec allows). -/

/-- Whitespace test used when trimming extracted code blocks. -/
def isWS (c : Char) : Bool :=
  c = ' ' || c = '\n' || c = '\t' || c = '\r'

/-- Drop leading and trailing whitespace from a character list. -/
def trimChars (l : List Char) : List Char :=
  ((l.dropWhile isWS).reverse.dropWhile isWS).reverse

/-- Split a character list at every triple-backtick marker.  The result has
one segment more than the number of markers; segments at odd positions lie
inside fences. -/
def splitFences : List Char → List (List Char)
  | '`' :: '`' :: '`' :: rest => [] :: splitFences rest
  | c :: rest =>
    match splitFences rest with
    | [] => [[c]]
    | s :: ss => (c :: s) :: ss
  | [] => [[]]

/-- Keep the segments at odd positions (the fenced regions), in order. -/
def oddSegs : List (List Char) → List (List Char)
  | [] => []
  | [_] => []
  | _ :: b :: rest => b :: oddSegs rest

/-- Split a character list at every newline. -/
def splitLines : List Char → List (List Char)
  | '\n' :: rest => [] :: splitLines rest
  | c :: rest =>
    match splitLines rest with
    | [] => [[c]]
    | s :: ss => (c :: s) :: ss
  | [] => [[]]

/-- Process one fenced region: if its first line is a language tag (a
non-empty alphabetic word followed by further lines), drop that line; then
trim surrounding whitespace. -/
def processRegion (r : List Char) : List Char :=
  match splitLines r with
  | [] => trimChars r
  | first :: rest =>
    if rest ≠ [] ∧ trimChars first ≠ [] ∧ (trimChars first).all Char.isAlpha then
      trimChars (List.intercalate ['\n'] rest)
    else
      trimChars r

/-- The processed contents of every fenced code block of `text`, in document
order. -/
def codeblocks (text : String) : List (List Char) :=
  (oddSegs (splitFences text.data)).map processRegion

/-- Modelled from the spec: the Code Extractor.  Joins the fenced blocks'
contents in document order with a single blank line; the empty string means
"no code". -/
def extract_and_combine_codeblocks (text : String) : String :=
  String.mk (List.intercalate ['\n', '\n'] (codeblocks text))

/-! ## Data model (`CodeActState`, messages) -/

/-- A role-tagged chat message, as the dicts / message objects the code
passes around (`{"role": ..., "content": ...}`). -/
structure Message where
  role : String
  content : String
deriving DecidableEq, Repr

/-- The agent state of `CodeActState`: `messages` (from `MessagesState`,
append-only via the `add_messages` reducer), the optional `script`, and the
`context` dictionary, whose value type is abstract (`dict[str, Any]`). -/
structure AgentState (Ctx : Type) where
  messages : List Message
  script : Option String
  context : Ctx
deriving DecidableEq, Repr

/-- The role the code attaches to model responses (`model.invoke` returns an
assistant message). -/
def assistantRole : String := "assistant"

/-- The role tag the sandbox node attaches to execution results: the code
builds `{"role": "user", "content": output}`, i.e. this implementation's
execution-result role is the chat role `"user"`. -/
def execResultRole : String := "user"

/-- The `create_default_prompt` helper (lines 29–38 of
`langgraph_codeact/__init__.py`). -/
def create_default_prompt (base_prompt : Option String) : String :=
  (match base_prompt with
   | some b => b ++ "\n\n"
   | none => "") ++
  "You will be given a task to perform. You should output either\n- a Python code snippet that provides the solution to the task, or a step towards the solution. Any output you want to extract from the code should be printed to the console. Code should be output in a fenced code block.\n- text to be shown directly to the user, if you want to ask for more information or provide the final answer.\n- use the same language as the user's input.\n"

/-- The `Command` value returned by `call_model`: an optional `goto` target
plus the state update (messages to append, new value of `script`). -/
structure Command where
  goto : Option String
  msgs : List Message
  script : Option String
deriving DecidableEq, Repr

/-- The message list `call_model` sends to the model: the system prompt is
prefixed at call time and is not part of the persisted state. -/
def modelInput (prompt : String) {Ctx : Type} (state : AgentState Ctx) : List Message :=
  { role := "system", content := prompt } :: state.messages

/-- The `call_model` node (lines 67–76): invoke the model on the
system-prefixed history, extract the code blocks from the response; with a
non-empty script go to the sandbox, otherwise end the run.  The model
service is abstracted as a function from the request messages to the
response text. -/
def call_model (prompt : String) (model : List Message → String)
    {Ctx : Type} (state : AgentState Ctx) : Command :=
  let messages := modelInput prompt state
  let response : Message := { role := assistantRole, content := model messages }
  let code := extract_and_combine_codeblocks response.content
  if code ≠ "" then
    { goto := some "sandbox", msgs := [response], script := some code }
  else
    { goto := none, msgs := [response], script := none }

/-- The synchronous `sandbox` node (lines 87–92): call
`eval_fn(state["script"])` — the script is the only argument the code
passes — and append one result message; the returned update touches only
`messages`. -/
def sandbox {Ctx : Type} (eval_fn : String → String)
    (state : AgentState Ctx) : AgentState Ctx :=
  let output := eval_fn (state.script.getD "")
  { state with
    messages := state.messages ++ [{ role := execResultRole, content := output }] }

/-! ## Loop Controller (`create_codeact`, lines 94–99)

The graph wiring: `add_edge(START, "call_model")`, the `call_model` node
with `destinations=(END, "sandbox")` steered by the returned `Command`, the
`sandbox` node, and `add_edge("sandbox", "call_model")`.  The model service
is abstracted by an oracle `Nat → String` giving the text of the k-th model
response; the run state records the current node and the number of model
and sandbox invocations so far. -/

/-- The nodes of the compiled graph; `done` is the implicit terminal
state reached when `call_model` returns a `Command` without `goto`. -/
inductive Node where
  | model
  | sandbox
  | done
deriving DecidableEq, Repr

/-- A point of a run: the agent state, the node about to execute, and the
counts of completed model and sandbox invocations. -/
structure RunState (Ctx : Type) where
  state : AgentState Ctx
  node : Node
  modelCalls : Nat
  sandboxCalls : Nat
deriving DecidableEq, Repr

/-- Apply the `Command` update of `call_model` to the state: the
`add_messages` reducer appends the new messages, and `script` is
overwritten with the command's value. -/
def applyModelUpdate {Ctx : Type} (s : AgentState Ctx) (c : Command) : AgentState Ctx :=
  { s with messages := s.messages ++ c.msgs, script := c.script }

/-- One superstep of the compiled graph: at `call_model`, run the node and
follow the command's `goto` (to the sandbox) or end the run; at `sandbox`,
run the node and follow the static edge back to `call_model`; at `done`,
nothing further executes. -/
def stepRun (prompt : String) (oracle : Nat → String) (ev : String → String)
    {Ctx : Type} (r : RunState Ctx) : RunState Ctx :=
  match r.node with
  | Node.done => r
  | Node.model =>
    let c := call_model prompt (fun _ => oracle r.modelCalls) r.state
    { state := applyModelUpdate r.state c
      node := if c.goto = some "sandbox" then Node.sandbox else Node.done
      modelCalls := r.modelCalls + 1
      sandboxCalls := r.sandboxCalls }
  | Node.sandbox =>
    { state := sandbox ev r.state
      node := Node.model
      modelCalls := r.modelCalls
      sandboxCalls := r.sandboxCalls + 1 }

/-- Iterate `stepRun` for `n` supersteps. -/
def runN (prompt : String) (oracle : Nat → String) (ev : String → String)
    {Ctx : Type} : Nat → RunState Ctx → RunState Ctx
  | 0, r => r
  | n + 1, r => runN prompt oracle ev n (stepRun prompt oracle ev r)

/-- The initial run state: the `START → call_model` edge makes `call_model`
the first node of every run. -/
def initRun {Ctx : Type} (s0 : AgentState Ctx) : RunState Ctx :=
  { state := s0, node := Node.model, modelCalls := 0, sandboxCalls := 0 }

/-! ## Fallible evaluator (`sse_server.py` and error propagation)

The sandbox node body is a bare call `output = eval_fn(state["script"])`
followed by the state update; a Python exception raised by `eval_fn`
propagates out of the node (and of the graph) before any update is built.
This is modelled with an `Except`-valued evaluator. -/

/-- The sandbox node with a fallible evaluator: an evaluator error escapes
before any message is appended or field modified. -/
def sandboxE {Ctx : Type} (ev : String → Except Nat String)
    (state : AgentState Ctx) : Except Nat (AgentState Ctx) :=
  match ev (state.script.getD "") with
  | Except.error e => Except.error e
  | Except.ok output =>
    Except.ok
      { state with
        messages := state.messages ++ [{ role := execResultRole, content := output }] }

/-- One superstep of the graph with a fallible evaluator: the single
evaluator invocation of the sandbox node either succeeds or aborts the
whole step. -/
def stepRunE (prompt : String) (oracle : Nat → String)
    (ev : String → Except Nat String) {Ctx : Type} (r : RunState Ctx) :
    Except Nat (RunState Ctx) :=
  match r.node with
  | Node.done => Except.ok r
  | Node.model =>
    let c := call_model prompt (fun _ => oracle r.modelCalls) r.state
    Except.ok
      { state := applyModelUpdate r.state c
        node := if c.goto = some "sandbox" then Node.sandbox else Node.done
        modelCalls := r.modelCalls + 1
        sandboxCalls := r.sandboxCalls }
  | Node.sandbox =>
    match sandboxE ev r.state with
    | Except.error e => Except.error e
    | Except.ok s' =>
      Except.ok
        { state := s'
          node := Node.model
          modelCalls := r.modelCalls
          sandboxCalls := r.sandboxCalls + 1 }

/-- An HTTP response as `remote_eval` consumes it: the status code and the
`run_result.stdout` field of the JSON body. -/
structure HttpResponse where
  status_code : Nat
  stdout : String
deriving DecidableEq, Repr

/-- The `requests` `raise_for_status` check: raises (errors with the status
code) exactly on a 4xx/5xx status. -/
def raise_for_status (r : HttpResponse) : Except Nat Unit :=
  if 400 ≤ r.status_code then Except.error r.status_code else Except.ok ()

/-- The `remote_eval` function of `src/sse_server.py` (lines 38–51) for the
`python` language it is always called with: POST the code to the sandbox
service (`post` abstracts `requests.post`, erroring on network failure),
call `raise_for_status`, and return the reported stdout.  Any failure
escapes as an error; there is no retry. -/
def remote_eval (post : String → Except Nat HttpResponse) (code : String) :
    Except Nat String :=
  match post code with
  | Except.error e => Except.error e
  | Except.ok resp =>
    match raise_for_status resp with
    | Except.error e => Except.error e
    | Except.ok _ => Except.ok resp.stdout

/-! ## Lemmas about the extractor -/

/-- The trimming function is right-drop after left-drop of whitespace. -/
lemma trimChars_eq_rdrop (l : List Char) :
    trimChars l = List.rdropWhile isWS (List.dropWhile isWS l) := rfl

/-- A prefix of a list that drops no leading whitespace drops none either. -/
lemma dropWhile_of_prefix {p : Char → Bool} {l₁ l₂ : List Char}
    (hp : l₁ <+: l₂) (h : List.dropWhile p l₂ = l₂) : List.dropWhile p l₁ = l₁ := by
  cases l₁ with
  | nil => rfl
  | cons a t =>
    obtain ⟨s, hs⟩ := hp
    rw [List.cons_append] at hs
    subst hs
    rw [List.dropWhile_cons] at h ⊢
    by_cases hpa : p a
    · rw [if_pos hpa] at h
      have hlen := congrArg List.length h
      have hle := (List.dropWhile_suffix (l := t ++ s) p).length_le
      simp at hlen hle
      omega
    · rw [if_neg hpa]

/-- Trimming is idempotent. -/
lemma trimChars_idem (l : List Char) : trimChars (trimChars l) = trimChars l := by
  rw [trimChars_eq_rdrop, trimChars_eq_rdrop]
  have h1 : List.dropWhile isWS (List.dropWhile isWS l) = List.dropWhile isWS l :=
    List.dropWhile_idempotent isWS l
  have h2 : List.dropWhile isWS (List.rdropWhile isWS (List.dropWhile isWS l))
      = List.rdropWhile isWS (List.dropWhile isWS l) :=
    dropWhile_of_prefix (List.rdropWhile_prefix isWS _) h1
  rw [h2, List.rdropWhile_idempotent]

/-- Every processed region is a fixed point of trimming. -/
lemma processRegion_trimmed (r : List Char) :
    trimChars (processRegion r) = processRegion r := by
  unfold processRegion
  split
  · exact trimChars_idem r
  · split
    · exact trimChars_idem _
    · exact trimChars_idem r

/-- Every extracted code block is already trimmed. -/
lemma codeblocks_trimmed (text : String) :
    ∀ b ∈ codeblocks text, trimChars b = b := by
  intro b hb
  simp only [codeblocks, List.mem_map] at hb
  obtain ⟨r, _, rfl⟩ := hb
  exact processRegion_trimmed r

/-! ## Lemmas about the loop driver -/

/-- Unfold one iteration of `runN`. -/
lemma runN_succ (p : String) (o : Nat → String) (e : String → String)
    {Ctx : Type} (n : Nat) (r : RunState Ctx) :
    runN p o e (n + 1) r = runN p o e n (stepRun p o e r) := rfl

/-- A model step whose response contains code: append the response, store
the script, move to the sandbox node. -/
lemma stepRun_model_code {Ctx : Type} (p : String) (o : Nat → String) (e : String → String)
    (r : RunState Ctx) (hn : r.node = Node.model)
    (hc : extract_and_combine_codeblocks (o r.modelCalls) ≠ "") :
    stepRun p o e r =
      ⟨⟨r.state.messages ++ [⟨assistantRole, o r.modelCalls⟩],
        some (extract_and_combine_codeblocks (o r.modelCalls)), r.state.context⟩,
       Node.sandbox, r.modelCalls + 1, r.sandboxCalls⟩ := by
  obtain ⟨⟨ms, scr, cx⟩, nd, mc, sbc⟩ := r
  cases hn
  simp [stepRun, call_model, applyModelUpdate, modelInput, hc]

/-- A model step whose response contains no code: append the response,
clear the script, end the run. -/
lemma stepRun_model_nocode {Ctx : Type} (p : String) (o : Nat → String) (e : String → String)
    (r : RunState Ctx) (hn : r.node = Node.model)
    (hc : extract_and_combine_codeblocks (o r.modelCalls) = "") :
    stepRun p o e r =
      ⟨⟨r.state.messages ++ [⟨assistantRole, o r.modelCalls⟩],
        none, r.state.context⟩,
       Node.done, r.modelCalls + 1, r.sandboxCalls⟩ := by
  obtain ⟨⟨ms, scr, cx⟩, nd, mc, sbc⟩ := r
  cases hn
  simp [stepRun, call_model, applyModelUpdate, modelInput, hc]

/-- A sandbox step: append the evaluator's output as one result message and
return to the model node; `script` and `context` are untouched. -/
lemma stepRun_sandbox {Ctx : Type} (p : String) (o : Nat → String) (e : String → String)
    (r : RunState Ctx) (hn : r.node = Node.sandbox) :
    stepRun p o e r =
      ⟨⟨r.state.messages ++ [⟨execResultRole, e (r.state.script.getD "")⟩],
        r.state.script, r.state.context⟩,
       Node.model, r.modelCalls, r.sandboxCalls + 1⟩ := by
  obtain ⟨⟨ms, scr, cx⟩, nd, mc, sbc⟩ := r
  cases hn
  simp [stepRun, sandbox]

/-- A finished run stays finished: the `done` state is absorbing. -/
lemma runN_done (p : String) (o : Nat → String) (e : String → String)
    {Ctx : Type} (n : Nat) (r : RunState Ctx) (h : r.node = Node.done) :
    runN p o e n r = r := by
  induction n with
  | zero => rfl
  | succ n ih =>
    have hs : stepRun p o e r = r := by
      obtain ⟨s, nd, mc, sbc⟩ := r
      cases h
      rfl
    rw [runN_succ, hs, ih]

/-- Neither node of the graph reads or writes `context`: one superstep
leaves it unchanged. -/
lemma stepRun_context {Ctx : Type} (p : String) (o : Nat → String) (e : String → String)
    (r : RunState Ctx) : (stepRun p o e r).state.context = r.state.context := by
  obtain ⟨⟨ms, scr, cx⟩, nd, mc, sbc⟩ := r
  cases nd <;> simp [stepRun, applyModelUpdate, sandbox]

/-- The messages of one superstep extend the previous messages. -/
lemma stepRun_msgs {Ctx : Type} (p : String) (o : Nat → String) (e : String → String)
    (r : RunState Ctx) :
    ∃ t, (stepRun p o e r).state.messages = r.state.messages ++ t := by
  obtain ⟨⟨ms, scr, cx⟩, nd, mc, sbc⟩ := r
  cases nd with
  | model =>
    refine ⟨[{ role := assistantRole, content := o mc }], ?_⟩
    simp only [stepRun, call_model, applyModelUpdate, modelInput]
    split <;> rfl
  | sandbox => exact ⟨_, rfl⟩
  | done => exact ⟨[], by simp [stepRun]⟩

/-- The `context` field is constant along any run. -/
lemma runN_context {Ctx : Type} (p : String) (o : Nat → String) (e : String → String) :
    ∀ (n : Nat) (r : RunState Ctx),
      (runN p o e n r).state.context = r.state.context := by
  intro n
  induction n with
  | zero => intro r; rfl
  | succ n ih =>
    intro r
    rw [runN_succ, ih, stepRun_context]

/-- The messages of a run extend the initial messages: nothing is ever
mutated, reordered or removed. -/
lemma runN_msgs {Ctx : Type} (p : String) (o : Nat → String) (e : String → String) :
    ∀ (n : Nat) (r : RunState Ctx),
      ∃ t, (runN p o e n r).state.messages = r.state.messages ++ t := by
  intro n
  induction n with
  | zero => intro r; exact ⟨[], by simp [runN]⟩
  | succ n ih =>
    intro r
    obtain ⟨t₁, h₁⟩ := stepRun_msgs p o e r
    obtain ⟨t₂, h₂⟩ := ih (stepRun p o e r)
    exact ⟨t₁ ++ t₂, by rw [runN_succ, h₂, h₁, List.append_assoc]⟩

/-- Main termination lemma: from the model node, if the next `M` responses
carry code and the response after them does not, the run finishes in
`2*M + 1` supersteps with `M + 1` model calls, `M` sandbox calls, the
final response appended last, a cleared script and an unchanged context. -/
lemma run_phase (p : String) (o : Nat → String) (e : String → String) {Ctx : Type} :
    ∀ (M : Nat) (r : RunState Ctx), r.node = Node.model →
      (∀ k, k < M → extract_and_combine_codeblocks (o (r.modelCalls + k)) ≠ "") →
      extract_and_combine_codeblocks (o (r.modelCalls + M)) = "" →
      ∃ tail,
        runN p o e (2 * M + 1) r =
          ⟨⟨r.state.messages ++ tail ++ [⟨assistantRole, o (r.modelCalls + M)⟩],
            none, r.state.context⟩,
           Node.done, r.modelCalls + M + 1, r.sandboxCalls + M⟩ := by
  intro M
  induction M with
  | zero =>
    intro r hn _ hstop
    refine ⟨[], ?_⟩
    have h1 : (2 : Nat) * 0 + 1 = 1 := by norm_num
    rw [h1, runN_succ, stepRun_model_nocode p o e r hn (by simpa using hstop)]
    simp [runN]
  | succ M ih =>
    intro r hn hcode hstop
    have hc0 : extract_and_combine_codeblocks (o r.modelCalls) ≠ "" := by
      simpa using hcode 0 (Nat.succ_pos M)
    have h2 : 2 * (M + 1) + 1 = 2 * M + 1 + 1 + 1 := by ring
    rw [h2, runN_succ, runN_succ, stepRun_model_code p o e r hn hc0]
    rw [stepRun_sandbox p o e _ rfl]
    set code := extract_and_combine_codeblocks (o r.modelCalls) with hcodedef
    obtain ⟨tail', ht⟩ :=
      ih ⟨⟨r.state.messages ++ [⟨assistantRole, o r.modelCalls⟩] ++
            [⟨execResultRole, e ((some code).getD "")⟩],
          some code, r.state.context⟩,
         Node.model, r.modelCalls + 1, r.sandboxCalls + 1⟩
        rfl
        (fun k hk => by
          have := hcode (k + 1) (Nat.succ_lt_succ hk)
          simpa [Nat.add_assoc, Nat.add_comm, Nat.add_left_comm] using this)
        (by
          have : r.modelCalls + 1 + M = r.modelCalls + (M + 1) := by ring
          rw [this]; exact hstop)
    rw [ht]
    refine ⟨[⟨assistantRole, o r.modelCalls⟩, ⟨execResultRole, e code⟩] ++ tail', ?_⟩
    have hmc : r.modelCalls + 1 + M + 1 = r.modelCalls + (M + 1) + 1 := by ring
    have hsc : r.sandboxCalls + 1 + M = r.sandboxCalls + (M + 1) := by ring
    have hom : r.modelCalls + 1 + M = r.modelCalls + (M + 1) := by ring
    simp [hmc, hsc, hom, List.append_assoc]

/-- Whatever superstep lands on the sandbox node must have come through the
code branch of `call_model`, which stores a non-empty script. -/
lemma stepRun_to_sandbox {Ctx : Type} (p : String) (o : Nat → String) (e : String → String)
    (r : RunState Ctx) (h : (stepRun p o e r).node = Node.sandbox) :
    ∃ c, (stepRun p o e r).state.script = some c ∧ c ≠ "" := by
  obtain ⟨⟨ms, scr, cx⟩, nd, mc, sbc⟩ := r
  cases nd with
  | done => simp [stepRun] at h
  | sandbox => simp [stepRun] at h
  | model =>
    by_cases hc : extract_and_combine_codeblocks (o mc) = ""
    · rw [stepRun_model_nocode p o e _ rfl hc] at h
      exact absurd h (by simp)
    · rw [stepRun_model_code p o e _ rfl hc]
      exact ⟨_, rfl, hc⟩

/-- The sandbox-precondition invariant is carried along any run. -/
lemma runN_sandbox_script {Ctx : Type} (p : String) (o : Nat → String) (e : String → String) :
    ∀ (n : Nat) (r : RunState Ctx),
      (r.node = Node.sandbox → ∃ c, r.state.script = some c ∧ c ≠ "") →
      (runN p o e n r).node = Node.sandbox →
      ∃ c, (runN p o e n r).state.script = some c ∧ c ≠ "" := by
  intro n
  induction n with
  | zero => intro r hr h; exact hr h
  | succ n ih =>
    intro r _ h
    rw [runN_succ] at h ⊢
    exact ih (stepRun p o e r) (stepRun_to_sandbox p o e r) h

/-- A model response that always carries the same one-line code block. -/
def alwaysCode : Nat → String := fun _ => "```\nx\n```"

/-- With an always-code model, no run starting away from `done` ever
reaches `done`. -/
lemma runN_alwaysCode_not_done {Ctx : Type} (p : String) (e : String → String) :
    ∀ (n : Nat) (r : RunState Ctx), r.node ≠ Node.done →
      (runN p alwaysCode e n r).node ≠ Node.done := by
  intro n
  induction n with
  | zero => intro r hr; exact hr
  | succ n ih =>
    intro r hr
    rw [runN_succ]
    refine ih _ ?_
    cases hnd : r.node with
    | done => exact absurd hnd hr
    | sandbox => rw [stepRun_sandbox p alwaysCode e r hnd]; simp
    | model =>
      have hx : extract_and_combine_codeblocks "```\nx\n```" ≠ "" := by decide
      have hc : extract_and_combine_codeblocks (alwaysCode r.modelCalls) ≠ "" := by
        simpa [alwaysCode] using hx
      rw [stepRun_model_code p alwaysCode e r hnd hc]
      simp

/-! ## Claim theorems -/

/-- A concrete sandbox-node run state whose context binds `x` to `1`: under
the claimed contract a sandbox call returning a new mapping would replace
this binding. -/
def w1run : RunState (List (String × Nat)) :=
  ⟨⟨[⟨"user", "print x"⟩], some "print(x)", [("x", 1)]⟩, Node.sandbox, 1, 0⟩

/-- C1: the claim says the sandbox step invokes the evaluator with
`(script, context)` and replaces the state's `context` wholesale with the
returned mapping.  The code does neither: `sandbox` calls
`eval_fn(state["script"])` with the script as its only argument (see the
type of `sandbox` and `stepRun`) and its returned update carries only
`messages`, so along any run — any number of supersteps from any starting
point — the `context` field is never written.  This theorem exhibits that
divergence: the context after `n` supersteps always equals the initial
context, contrary to the claimed wholesale replacement by the evaluator's
`newContext`; concretely, a sandbox step on a state with context
`[("x", 1)]` leaves that context in place whatever the evaluator does. -/
theorem context_never_updated :
    (∀ (Ctx : Type) (p : String) (o : Nat → String) (e : String → String)
       (n : Nat) (r : RunState Ctx),
      (runN p o e n r).state.context = r.state.context) ∧
    (stepRun "p" (fun _ => "") (fun _ => "4\n") w1run).state.context = [("x", 1)] :=
  ⟨fun _ p o e n r => runN_context p o e n r, rfl⟩

/-- C2: a model step appends the model's response message to the history;
when the extracted script is non-empty it stores the script and moves to
the sandbox node, otherwise it clears the script and ends the run, and the
transition to the sandbox is taken exactly when the extracted script is
non-empty. -/
theorem call_model_decision {Ctx : Type} (p : String) (o : Nat → String)
    (e : String → String) (r : RunState Ctx) (hn : r.node = Node.model) :
    (stepRun p o e r).state.messages =
      r.state.messages ++ [⟨assistantRole, o r.modelCalls⟩] ∧
    (extract_and_combine_codeblocks (o r.modelCalls) ≠ "" →
      (stepRun p o e r).state.script =
        some (extract_and_combine_codeblocks (o r.modelCalls)) ∧
      (stepRun p o e r).node = Node.sandbox) ∧
    (extract_and_combine_codeblocks (o r.modelCalls) = "" →
      (stepRun p o e r).state.script = none ∧
      (stepRun p o e r).node = Node.done) ∧
    ((stepRun p o e r).node = Node.sandbox ↔
      extract_and_combine_codeblocks (o r.modelCalls) ≠ "") := by
  by_cases hc : extract_and_combine_codeblocks (o r.modelCalls) = ""
  · rw [stepRun_model_nocode p o e r hn hc]
    simp [hc]
  · rw [stepRun_model_code p o e r hn hc]
    simp [hc]

/-- Concrete run state for the model-step witness. -/
def w2run : RunState Nat := ⟨⟨[⟨"user", "print 2+2"⟩], none, 0⟩, Node.model, 0, 0⟩

/-- Witness for C2 at a concrete state and a response carrying one code
block: the model → sandbox transition is taken exactly because the
extracted script is non-empty. -/
theorem call_model_decision_witness :
    (stepRun "p" (fun _ => "```\nx\n```") (fun _ => "out") w2run).node = Node.sandbox ↔
      extract_and_combine_codeblocks ((fun _ : Nat => "```\nx\n```") w2run.modelCalls) ≠ "" :=
  (call_model_decision "p" (fun _ => "```\nx\n```") (fun _ => "out") w2run rfl).2.2.2

/-- C3: if the `N`-th model response is the first with no fenced code
block, the run reaches `done` after `2N - 1` supersteps with exactly `N`
model invocations and `N - 1` sandbox invocations, the last message of the
history is the `N`-th model response, and no further superstep changes
anything. -/
theorem loop_termination {Ctx : Type} (p : String) (o : Nat → String)
    (e : String → String) (s0 : AgentState Ctx) (N : Nat) (hN : 1 ≤ N)
    (hcode : ∀ k, k + 1 < N → extract_and_combine_codeblocks (o k) ≠ "")
    (hstop : extract_and_combine_codeblocks (o (N - 1)) = "") :
    (runN p o e (2 * N - 1) (initRun s0)).node = Node.done ∧
    (runN p o e (2 * N - 1) (initRun s0)).modelCalls = N ∧
    (runN p o e (2 * N - 1) (initRun s0)).sandboxCalls = N - 1 ∧
    (runN p o e (2 * N - 1) (initRun s0)).state.messages.getLast? =
      some ⟨assistantRole, o (N - 1)⟩ ∧
    ∀ m, runN p o e m (runN p o e (2 * N - 1) (initRun s0)) =
      runN p o e (2 * N - 1) (initRun s0) := by
  obtain ⟨M, rfl⟩ : ∃ M, N = M + 1 := ⟨N - 1, (Nat.succ_pred_eq_of_pos hN).symm⟩
  have harith : 2 * (M + 1) - 1 = 2 * M + 1 := by omega
  rw [harith]
  obtain ⟨tail, ht⟩ := run_phase p o e M (initRun s0) rfl
    (fun k hk => by simpa [initRun] using hcode k (by omega))
    (by simpa [initRun] using hstop)
  rw [ht]
  refine ⟨rfl, by simp [initRun], by simp [initRun], ?_, fun m => runN_done p o e m _ rfl⟩
  simp [initRun, List.getLast?_concat]

/-- Oracle for the C3 witness: one code-bearing response, then plain text
(the spec's concrete scenario). -/
def w3oracle : Nat → String :=
  fun k => if k = 0 then "```\nprint(2+2)\n```" else "The answer is 4."

/-- Evaluator for the C3 witness: the sandbox reports `4`. -/
def w3eval : String → String := fun _ => "4\n"

/-- Initial state for the C3 witness. -/
def w3state : AgentState Nat := ⟨[⟨"user", "print 2+2"⟩], none, 0⟩

/-- Witness for C3 with `N = 2`: the run finishes after three supersteps
with two model calls and one sandbox call. -/
theorem loop_termination_witness :
    (runN "p" w3oracle w3eval 3 (initRun w3state)).node = Node.done ∧
    (runN "p" w3oracle w3eval 3 (initRun w3state)).modelCalls = 2 ∧
    (runN "p" w3oracle w3eval 3 (initRun w3state)).sandboxCalls = 1 := by
  have h := loop_termination "p" w3oracle w3eval w3state 2 (by decide)
    (fun k hk => by
      have hk0 : k = 0 := by omega
      subst hk0
      decide)
    (by decide)
  exact ⟨h.1, h.2.1, h.2.2.1⟩

/-- C4: a sandbox step appends exactly one message — result role, content
equal to the evaluator's output on the current script — and changes
nothing else in the state. -/
theorem sandbox_appends_one_result {Ctx : Type} (p : String) (o : Nat → String)
    (e : String → String) (r : RunState Ctx) (sc : String)
    (hn : r.node = Node.sandbox) (hs : r.state.script = some sc) :
    (stepRun p o e r).state.messages =
      r.state.messages ++ [⟨execResultRole, e sc⟩] ∧
    (stepRun p o e r).state.script = r.state.script ∧
    (stepRun p o e r).state.context = r.state.context := by
  rw [stepRun_sandbox p o e r hn]
  simp [hs]

/-- Concrete run state for the sandbox-step witness. -/
def w4run : RunState Nat :=
  ⟨⟨[⟨"user", "print 2+2"⟩], some "print(2+2)", 0⟩, Node.sandbox, 1, 0⟩

/-- Witness for C4 on a concrete state: exactly the one result message
with the evaluator's output is appended. -/
theorem sandbox_appends_one_result_witness :
    (stepRun "p" (fun _ => "") (fun _ => "4\n") w4run).state.messages =
      w4run.state.messages ++ [⟨execResultRole, "4\n"⟩] :=
  (sandbox_appends_one_result "p" (fun _ => "") (fun _ => "4\n") w4run "print(2+2)"
    rfl rfl).1

/-- C5: the message list fed to the model is the system prompt (prefixed
at call time, not persisted) followed by the accumulated history, so its
length is `1 +` the number of messages appended so far; and along any run
the history only ever grows at the end — prior messages are never mutated,
reordered or removed. -/
theorem messages_append_only {Ctx : Type} (p : String) (o : Nat → String)
    (e : String → String) (r : RunState Ctx) :
    (∀ s : AgentState Ctx, (modelInput p s).length = 1 + s.messages.length) ∧
    ∀ n, ∃ t, (runN p o e n r).state.messages = r.state.messages ++ t :=
  ⟨fun s => by simp [modelInput, Nat.add_comm], fun n => runN_msgs p o e n r⟩

/-- C6: the Code Extractor returns the empty ("no code") result when the
text has no fenced block, the single block's trimmed content when it has
exactly one, and for two or more blocks their contents joined in document
order by one blank line, non-fenced text playing no part (the block list
`codeblocks` is computed only from the fenced regions, in order). -/
theorem extractor_spec (text : String) :
    (codeblocks text = [] → extract_and_combine_codeblocks text = "") ∧
    (∀ b, codeblocks text = [b] →
      extract_and_combine_codeblocks text = String.mk b ∧ trimChars b = b) ∧
    (∀ bs, 2 ≤ bs.length → codeblocks text = bs →
      extract_and_combine_codeblocks text =
        String.mk (List.intercalate ['\n', '\n'] bs) ∧
      ∀ b ∈ bs, trimChars b = b) := by
  refine ⟨?_, ?_, ?_⟩
  · intro h
    rw [extract_and_combine_codeblocks, h]
    rfl
  · intro b h
    refine ⟨?_, codeblocks_trimmed text b (by rw [h]; exact List.mem_singleton_self b)⟩
    rw [extract_and_combine_codeblocks, h]
    simp [List.intercalate]
  · intro bs _ h
    exact ⟨by rw [extract_and_combine_codeblocks, h],
      fun b hb => codeblocks_trimmed text b (by rw [h]; exact hb)⟩

/-- Witness for C6 on three concrete texts: no block, one block, and two
blocks (the second with a language tag). -/
theorem extractor_spec_witness :
    extract_and_combine_codeblocks "There is no code here." = "" ∧
    extract_and_combine_codeblocks "a ```\nx\n``` b" = String.mk ['x'] ∧
    extract_and_combine_codeblocks "```\nx = 1\n``` and ```python\ny = 2\n```" =
      String.mk (List.intercalate ['\n', '\n']
        [['x', ' ', '=', ' ', '1'], ['y', ' ', '=', ' ', '2']]) :=
  ⟨(extractor_spec "There is no code here.").1 (by decide),
   ((extractor_spec "a ```\nx\n``` b").2.1 ['x'] (by decide)).1,
   ((extractor_spec "```\nx = 1\n``` and ```python\ny = 2\n```").2.2
     [['x', ' ', '=', ' ', '1'], ['y', ' ', '=', ' ', '2']]
     (by decide) (by decide)).1⟩

/-- C7: after every sandbox execution — the evaluator output being
whatever it may, success or failure text alike — the next node is the
model node, never `done`; and the state machine bounds no iteration count:
with a model that always answers with code, no number of supersteps
reaches `done`. -/
theorem sandbox_unconditional_return (p : String) (e : String → String) :
    (∀ (Ctx : Type) (o : Nat → String) (r : RunState Ctx),
      r.node = Node.sandbox → (stepRun p o e r).node = Node.model) ∧
    (∀ (Ctx : Type) (s0 : AgentState Ctx) (n : Nat),
      (runN p alwaysCode e n (initRun s0)).node ≠ Node.done) := by
  constructor
  · intro Ctx o r hn
    rw [stepRun_sandbox p o e r hn]
  · intro Ctx s0 n
    exact runN_alwaysCode_not_done p e n (initRun s0) (by simp [initRun])

/-- Witness for C7: a concrete sandbox state steps back to the model node,
and a five-superstep always-code run has not terminated. -/
theorem sandbox_unconditional_return_witness :
    (stepRun "p" (fun _ => "") (fun _ => "out") w4run).node = Node.model ∧
    (runN "p" alwaysCode (fun _ => "out") 5 (initRun w3state)).node ≠ Node.done :=
  ⟨(sandbox_unconditional_return "p" (fun _ => "out")).1 Nat (fun _ => "") w4run rfl,
   (sandbox_unconditional_return "p" (fun _ => "out")).2 Nat w3state 5⟩

/-- C8: an evaluator infrastructure failure aborts the sandbox superstep —
the error value is returned unchanged by the single evaluator invocation,
no retry happens and no updated state (no appended message, no modified
field) is produced; and `remote_eval` turns both a network failure of the
POST and a 4xx/5xx response (`raise_for_status`) into exactly such an
error. -/
theorem eval_failure_propagates :
    (∀ (Ctx : Type) (p : String) (o : Nat → String)
       (ev : String → Except Nat String) (r : RunState Ctx) (err : Nat),
      r.node = Node.sandbox → ev (r.state.script.getD "") = Except.error err →
      stepRunE p o ev r = Except.error err) ∧
    (∀ (post : String → Except Nat HttpResponse) (code : String) (resp : HttpResponse),
      post code = Except.ok resp → 400 ≤ resp.status_code →
      remote_eval post code = Except.error resp.status_code) ∧
    (∀ (post : String → Except Nat HttpResponse) (code : String) (err : Nat),
      post code = Except.error err → remote_eval post code = Except.error err) := by
  refine ⟨?_, ?_, ?_⟩
  · intro Ctx p o ev r err hn hev
    obtain ⟨⟨ms, scr, cx⟩, nd, mc, sbc⟩ := r
    cases hn
    simp only [] at hev
    simp [stepRunE, sandboxE, hev]
  · intro post code resp hp hs
    simp [remote_eval, hp, raise_for_status, hs]
  · intro post code err hp
    simp [remote_eval, hp]

/-- Concrete run state for the evaluator-failure witness. -/
def w8run : RunState Nat := ⟨⟨[], some "print(2+2)", 0⟩, Node.sandbox, 1, 0⟩

/-- Witness for C8: a 401-style evaluator failure aborts the superstep
with that error, and a 503 response makes `remote_eval` fail with 503. -/
theorem eval_failure_propagates_witness :
    stepRunE "p" (fun _ => "") (fun _ => Except.error 401) w8run = Except.error 401 ∧
    remote_eval (fun _ => Except.ok ⟨503, ""⟩) "print(2+2)" = Except.error 503 :=
  ⟨eval_failure_propagates.1 Nat "p" (fun _ => "")
      (fun _ => Except.error 401) w8run 401 rfl rfl,
   eval_failure_propagates.2.1 (fun _ => Except.ok ⟨503, ""⟩) "print(2+2)"
      ⟨503, ""⟩ rfl (by decide)⟩

/-- C9: `call_model` reads only the `messages` field of the state: two
states with equal histories — their `script` and `context` fields, even
the type of the context, arbitrary — yield the same command (same appended
message, same script, same continue-vs-stop target) for the same model. -/
theorem call_model_reads_only_messages (p : String) (model : List Message → String)
    {Ctx Ctx' : Type} (s1 : AgentState Ctx) (s2 : AgentState Ctx')
    (h : s1.messages = s2.messages) :
    call_model p model s1 = call_model p model s2 := by
  simp [call_model, modelInput, h]

/-- First concrete state for the C9 witness: a stale script and a numeric
context. -/
def w9a : AgentState Nat := ⟨[⟨"user", "hi"⟩], some "old script", 7⟩

/-- Second concrete state for the C9 witness: same messages, no script, a
string-map context of a different type. -/
def w9b : AgentState (List (String × String)) := ⟨[⟨"user", "hi"⟩], none, [("x", "1")]⟩

/-- Witness for C9: the two concrete states produce identical commands. -/
theorem call_model_reads_only_messages_witness :
    call_model "p" (fun _ => "resp") w9a = call_model "p" (fun _ => "resp") w9b :=
  call_model_reads_only_messages "p" (fun _ => "resp") w9a w9b rfl

/-- C10: in any run started at the model node, whenever the sandbox node
is about to execute the `script` field holds a non-empty string — the only
edge into the sandbox is the code branch of `call_model`, which stores the
non-empty extracted script — so the sandbox's read of `script` never sees
`None`. -/
theorem sandbox_script_always_set {Ctx : Type} (p : String) (o : Nat → String)
    (e : String → String) (s0 : AgentState Ctx) (n : Nat)
    (h : (runN p o e n (initRun s0)).node = Node.sandbox) :
    ∃ c, (runN p o e n (initRun s0)).state.script = some c ∧ c ≠ "" :=
  runN_sandbox_script p o e n (initRun s0)
    (fun hc => absurd hc (by simp [initRun])) h

/-- Witness for C10: after one superstep of an always-code run the sandbox
node is reached and the script is a non-empty string. -/
theorem sandbox_script_always_set_witness :
    ∃ c, (runN "p" alwaysCode (fun _ => "out") 1 (initRun w3state)).state.script =
      some c ∧ c ≠ "" :=
  sandbox_script_always_set "p" alwaysCode (fun _ => "out") w3state 1 (by decide)

end CodeAct
